import Mathlib

/-!
# Verification of the arbitrage-bot simulation core

Shallow embedding of the TypeScript sources of the `arbitrage-bot`
repository, together with proofs about the embedded functions.

JavaScript `bigint` arithmetic is embedded as `Int`, with `/` on `bigint`
(truncation toward zero) embedded as `Int.tdiv` (named `jsDiv` below).
A `throw` of a classified error is embedded as `Except SimError`.
-/



/-- The error classes thrown by `SimulatorService`
(`UniswapV2Library: INSUFFICIENT_*` and `Invalid reserves array`). -/
inductive SimError where
  | InsufficientInputAmount
  | InsufficientLiquidity
  | InsufficientOutputAmount
  | InvalidReservesArray
deriving DecidableEq, Repr

/-- JavaScript `bigint` division: exact integer division truncating
toward zero. -/
def jsDiv (a b : Int) : Int := Int.tdiv a b

namespace SimulatorService

/-- `SimulatorService.getAmountOut` (src/src/db/prismaClient.ts:660).
Throws `INSUFFICIENT_INPUT_AMOUNT` when `amountIn <= 0`, then
`INSUFFICIENT_LIQUIDITY` when `reserveIn <= 0 || reserveOut <= 0`,
otherwise returns `(amountIn*997*reserveOut) / (reserveIn*1000 + amountIn*997)`. -/
def getAmountOut (amountIn reserveIn reserveOut : Int) : Except SimError Int :=
  if amountIn ≤ 0 then .error .InsufficientInputAmount
  else if reserveIn ≤ 0 ∨ reserveOut ≤ 0 then .error .InsufficientLiquidity
  else
    let amountInWithFee := amountIn * 997
    let numerator := amountInWithFee * reserveOut
    let denominator := reserveIn * 1000 + amountInWithFee
    .ok (jsDiv numerator denominator)

/-- `SimulatorService.getAmountIn` (src/src/db/prismaClient.ts:680).
Throws `INSUFFICIENT_OUTPUT_AMOUNT` when `amountOut <= 0`,
`INSUFFICIENT_LIQUIDITY` when a reserve is `<= 0` or `amountOut >= reserveOut`,
otherwise returns `(reserveIn*amountOut*1000) / ((reserveOut-amountOut)*997) + 1`. -/
def getAmountIn (amountOut reserveIn reserveOut : Int) : Except SimError Int :=
  if amountOut ≤ 0 then .error .InsufficientOutputAmount
  else if reserveIn ≤ 0 ∨ reserveOut ≤ 0 then .error .InsufficientLiquidity
  else if reserveOut ≤ amountOut then .error .InsufficientLiquidity
  else
    let numerator := reserveIn * amountOut * 1000
    let denominator := (reserveOut - amountOut) * 997
    .ok (jsDiv numerator denominator + 1)

/-- Loop body of `getAmountsOut`: starting from the previous amount, apply
`getAmountOut` across the remaining reserve pairs, collecting the outputs and
propagating the first failure. -/
def getAmountsOutAux (prev : Int) : List (Int × Int) → Except SimError (List Int)
  | [] => .ok []
  | (rin, rout) :: rest =>
    match getAmountOut prev rin rout with
    | .error e => .error e
    | .ok next =>
      match getAmountsOutAux next rest with
      | .error e => .error e
      | .ok tail => .ok (next :: tail)

/-- `SimulatorService.getAmountsOut` (src/src/db/prismaClient.ts:703): throws
`Invalid reserves array` on an empty list, otherwise starts from `[amountIn]`
and pushes `getAmountOut` of the previous element for each reserve pair,
propagating any `getAmountOut` failure (the source's index loop is embedded
as structural recursion over the reserve list). -/
def getAmountsOut (amountIn : Int) (reserves : List (Int × Int)) :
    Except SimError (List Int) :=
  if reserves.isEmpty then .error .InvalidReservesArray
  else
    match getAmountsOutAux amountIn reserves with
    | .error e => .error e
    | .ok tail => .ok (amountIn :: tail)

/-- `SimulatorService.calculatePriceImpact` (src/src/db/prismaClient.ts:746).
Returns `0` when `reserveIn <= 0 || reserveOut <= 0 || amountIn <= 0`;
otherwise computes the scaled integer spot and execution prices, returns `0`
when the spot price is `≤ 0`, and otherwise a basis-point impact divided by
100.  The final JS `Number(priceImpact) / 100` float conversion is modelled
as exact division in ℚ. -/
def calculatePriceImpact (amountIn amountOut reserveIn reserveOut : Int) : ℚ :=
  if reserveIn ≤ 0 ∨ reserveOut ≤ 0 ∨ amountIn ≤ 0 then 0
  else
    let spotPrice := jsDiv (reserveOut * 10 ^ 18) reserveIn
    let executionPrice := jsDiv (amountOut * 10 ^ 18) amountIn
    if spotPrice ≤ 0 then 0
    else ((jsDiv ((spotPrice - executionPrice) * 10000) spotPrice : ℤ) : ℚ) / 100

/-- Result record of `simulateSimpleArbitrage`; the floating-point
`profitPercent` field of the source is omitted (no claim depends on it). -/
structure SimpleArbResult where
  amountOut : Int
  profit : Int
  priceImpactA : ℚ
  priceImpactB : ℚ
  isProfitable : Bool

/-- `SimulatorService.simulateSimpleArbitrage` (src/src/db/prismaClient.ts:773):
buy on market A, sell on market B; `profit` is gross profit minus the gas
estimate; `isProfitable` iff that net profit is positive; a hop failure is
rethrown. -/
def simulateSimpleArbitrage (amountIn : Int) (reservesA reservesB : Int × Int)
    (gasEstimate : Int) : Except SimError SimpleArbResult :=
  match getAmountOut amountIn reservesA.1 reservesA.2 with
  | .error e => .error e
  | .ok amountB =>
    match getAmountOut amountB reservesB.1 reservesB.2 with
    | .error e => .error e
    | .ok amountOut =>
      let grossProfit := amountOut - amountIn
      let netProfit := grossProfit - gasEstimate
      .ok ⟨amountOut, netProfit,
        calculatePriceImpact amountIn amountB reservesA.1 reservesA.2,
        calculatePriceImpact amountB amountOut reservesB.1 reservesB.2,
        decide (0 < netProfit)⟩

/-- Result record of `simulateTriangularArbitrage`; the floating-point
`profitPercent` field of the source is omitted (no claim depends on it). -/
structure TriArbResult where
  amountOut : Int
  profit : Int
  amounts : List Int
  priceImpacts : List ℚ
  isProfitable : Bool

/-- `SimulatorService.simulateTriangularArbitrage`
(src/src/db/prismaClient.ts:821): three-hop composition A→B→C→A with
`profit` net of gas, the 4-element amount sequence and 3-element price-impact
sequence; a hop failure is rethrown. -/
def simulateTriangularArbitrage (amountIn : Int)
    (reservesAB reservesBC reservesCA : Int × Int) (gasEstimate : Int) :
    Except SimError TriArbResult :=
  match getAmountOut amountIn reservesAB.1 reservesAB.2 with
  | .error e => .error e
  | .ok amountB =>
    match getAmountOut amountB reservesBC.1 reservesBC.2 with
    | .error e => .error e
    | .ok amountC =>
      match getAmountOut amountC reservesCA.1 reservesCA.2 with
      | .error e => .error e
      | .ok amountOut =>
        let netProfit := amountOut - amountIn - gasEstimate
        .ok ⟨amountOut, netProfit,
          [amountIn, amountB, amountC, amountOut],
          [calculatePriceImpact amountIn amountB reservesAB.1 reservesAB.2,
           calculatePriceImpact amountB amountC reservesBC.1 reservesBC.2,
           calculatePriceImpact amountC amountOut reservesCA.1 reservesCA.2],
          decide (0 < netProfit)⟩

/-- Loop of `SimulatorService.findOptimalAmount`
(src/src/db/prismaClient.ts:875): bounded binary search tracking the best
profit seen; a profitable midpoint moves the search right, an unprofitable
one left, a failing simulation shrinks the right end; the loop breaks when
`left >= right` (checked after the update, as in the source). -/
def findOptimalGo (reservesA reservesB : Int × Int) (gasEstimate : Int) :
    Nat → Int → Int → Int → Int → Int
  | 0, _, _, bestAmount, _ => bestAmount
  | n + 1, left, right, bestAmount, bestProfit =>
    let mid := jsDiv (left + right) 2
    match simulateSimpleArbitrage mid reservesA reservesB gasEstimate with
    | .ok result =>
      let bestAmount' := if bestProfit < result.profit then mid else bestAmount
      let bestProfit' := if bestProfit < result.profit then result.profit
        else bestProfit
      let left' := if result.isProfitable = true then mid + 1 else left
      let right' := if result.isProfitable = true then right else mid - 1
      if right' ≤ left' then bestAmount'
      else findOptimalGo reservesA reservesB gasEstimate n left' right'
        bestAmount' bestProfit'
    | .error _ =>
      if jsDiv (left + right) 2 - 1 ≤ left then bestAmount
      else findOptimalGo reservesA reservesB gasEstimate n left
        (jsDiv (left + right) 2 - 1) bestAmount bestProfit

/-- `SimulatorService.findOptimalAmount`: binary search from
`[minAmount, maxAmount]` starting with `bestAmount = minAmount` and
`bestProfit = -1`; the source's default iteration count is 20. -/
def findOptimalAmount (minAmount maxAmount : Int)
    (reservesA reservesB : Int × Int) (gasEstimate : Int)
    (iterations : Nat) : Int :=
  findOptimalGo reservesA reservesB gasEstimate iterations
    minAmount maxAmount minAmount (-1)

end SimulatorService

/-- `RateLimiterOptions` (src/unnamed/part_000): at most `maxRequests`
dispatches per sliding `timeWindow` (ms), with minimum inter-request spacing
`minInterval` (ms).  Millisecond clock readings are embedded as `Int`. -/
structure RateLimiterOptions where
  maxRequests : Nat
  timeWindow : Int
  minInterval : Int
deriving DecidableEq, Repr

namespace RateLimiter

/-- `RateLimiter.cleanOldRequests`: keep only recorded request times strictly
newer than `now - timeWindow`. -/
def cleanOldRequests (opts : RateLimiterOptions) (now : Int)
    (requests : List Int) : List Int :=
  requests.filter (fun t => decide (now - opts.timeWindow < t))

/-- `RateLimiter.canMakeRequest`: after cleaning, the in-window request count
must be below `maxRequests`. -/
def canMakeRequest (opts : RateLimiterOptions) (now : Int)
    (requests : List Int) : Bool :=
  (cleanOldRequests opts now requests).length < opts.maxRequests

/-- `RateLimiter.getWaitTime`: time until the window constraint or the
minimum-interval constraint can be satisfied (`Math.max(a, b, 0)`). -/
def getWaitTime (opts : RateLimiterOptions) (now lastRequestTime : Int)
    (requests : List Int) : Int :=
  match cleanOldRequests opts now requests with
  | [] => 0
  | oldest :: _ =>
    max (opts.timeWindow - (now - oldest))
      (max (opts.minInterval - (now - lastRequestTime)) 0)

/-- `t` lies in the half-open sliding window `(s, s + timeWindow]`. -/
def inWindow (opts : RateLimiterOptions) (s t : Int) : Bool :=
  decide (s < t) && decide (t ≤ s + opts.timeWindow)

/-- A dispatch-time trace is admissible from a list of previously recorded
request times when every successive dispatch passes the loop's
`canMakeRequest` check at its dispatch instant (`recordRequest` appends each
dispatch time to the recorded list). -/
def admissibleFrom (opts : RateLimiterOptions) (prev : List Int) :
    List Int → Prop
  | [] => True
  | t :: rest =>
    canMakeRequest opts t prev = true ∧ admissibleFrom opts (prev ++ [t]) rest

/-- A full dispatch-time trace of the rate limiter, admissible from an empty
request record. -/
def Admissible (opts : RateLimiterOptions) (dispatches : List Int) : Prop :=
  admissibleFrom opts [] dispatches

/-- State of the modelled rate-limiter event loop.  `arrivals` are the
`execute()` submission times not yet enqueued (assumed nondecreasing),
`queue` the number of queued calls, `requests`/`lastRequestTime` the
limiter's recorded state, `dispatches` the dispatch times so far. -/
structure SimState where
  now : Int
  arrivals : List Int
  queue : Nat
  requests : List Int
  lastRequestTime : Int
  processing : Bool
  dispatches : List Int
deriving DecidableEq, Repr

/-- Move every pending arrival with time `≤ upTo` into the queue. -/
def enqueueArrivals (upTo : Int) (s : SimState) : SimState :=
  { s with
    arrivals := s.arrivals.filter (fun a => decide (upTo < a)),
    queue := s.queue + (s.arrivals.filter (fun a => decide (a ≤ upTo))).length }

/-- One cooperative step of `RateLimiter.processQueue`
(src/unnamed/part_000:31-73), modelling the dispatched functions as
resolving instantaneously: while idle, time advances to the next submission,
which starts the dispatch loop; while processing, either the queue is empty
and the loop exits, or `canMakeRequest` admits a dispatch (recording it and,
when the queue stays nonempty, sleeping `minInterval`), or the loop sleeps
`getWaitTime`.  Submissions arriving during a sleep are enqueued. -/
def simStep (opts : RateLimiterOptions) (s : SimState) : SimState :=
  if s.processing = false then
    if 0 < s.queue then { s with processing := true }
    else
      match s.arrivals with
      | [] => s
      | a :: _ =>
        { (enqueueArrivals (max s.now a) s) with
          now := max s.now a, processing := true }
  else if s.queue = 0 then { s with processing := false }
  else if canMakeRequest opts s.now s.requests then
    let s' := { s with
      requests := cleanOldRequests opts s.now s.requests ++ [s.now],
      lastRequestTime := s.now,
      queue := s.queue - 1,
      dispatches := s.dispatches ++ [s.now] }
    if 0 < s'.queue then
      { (enqueueArrivals (s.now + opts.minInterval) s') with
        now := s.now + opts.minInterval }
    else s'
  else
    let w := getWaitTime opts s.now s.lastRequestTime s.requests
    let s' := { s with requests := cleanOldRequests opts s.now s.requests }
    { (enqueueArrivals (s.now + w) s') with now := s.now + w }

/-- Run the modelled event loop for a given number of steps. -/
def simRun (opts : RateLimiterOptions) : Nat → SimState → SimState
  | 0, s => s
  | n + 1, s => simRun opts n (simStep opts s)

/-- Initial state: clock at 0, no recorded requests, given submission times. -/
def initState (arrivals : List Int) : SimState :=
  { now := 0, arrivals := arrivals, queue := 0, requests := [],
    lastRequestTime := 0, processing := false, dispatches := [] }

/-- Loop invariant of the modelled dispatch loop: the recorded request list
agrees with the full dispatch history once both are cleaned at any instant at
or after the current clock, and the dispatch history is admissible. -/
def Inv (opts : RateLimiterOptions) (s : SimState) : Prop :=
  (∀ t, s.now ≤ t →
    cleanOldRequests opts t s.requests = cleanOldRequests opts t s.dispatches) ∧
  Admissible opts s.dispatches

end RateLimiter

/-- Result of a `RetryHandler.withExponentialBackoff` run: the final outcome,
the number of invocations of `fn`, and the backoff delays slept (ms). -/
structure RetryResult (ε α : Type) where
  result : Except ε α
  attempts : Nat
  delays : List Nat

namespace RetryHandler

/-- Loop of `RetryHandler.withExponentialBackoff` (src/unnamed/part_000:140).
The retried function is modelled as a map from the attempt index to that
attempt's outcome; `remaining = maxRetries - attempt` counts the retries
still allowed.  On an error the loop rethrows when no retries remain or the
error is classified non-retryable by `shouldRetry`, and otherwise sleeps
`min (baseDelay * 2 ^ attempt) maxDelay` and retries. -/
def retryGo {ε α : Type} (baseDelay maxDelay : Nat) (shouldRetry : ε → Bool)
    (fn : Nat → Except ε α) : Nat → Nat → RetryResult ε α
  | remaining, attempt =>
    match fn attempt with
    | .ok v => ⟨.ok v, 1, []⟩
    | .error e =>
      match remaining with
      | 0 => ⟨.error e, 1, []⟩
      | r + 1 =>
        if shouldRetry e then
          let d := min (baseDelay * 2 ^ attempt) maxDelay
          let rest := retryGo baseDelay maxDelay shouldRetry fn r (attempt + 1)
          ⟨rest.result, rest.attempts + 1, d :: rest.delays⟩
        else ⟨.error e, 1, []⟩

/-- `RetryHandler.withExponentialBackoff` with explicit options (source
defaults: `maxRetries = 3, baseDelay = 1000, maxDelay = 10000`). -/
def withExponentialBackoff {ε α : Type} (maxRetries baseDelay maxDelay : Nat)
    (shouldRetry : ε → Bool) (fn : Nat → Except ε α) : RetryResult ε α :=
  retryGo baseDelay maxDelay shouldRetry fn maxRetries 0

end RetryHandler

namespace ArbitrageDetector

/-- Safety-margin haircut of `ArbitrageDetector`
(src/src/workers/arbDetector.ts:343 and :496):
`adjustedProfit = profit * marginFactor / 1000`, where `marginFactor` stands
for the integer `Math.floor((1 - config.trading.safetyMargin) * 1000)` (the
floating-point computation of that multiplier is abstracted as an `Int`
parameter). -/
def adjustProfit (profit marginFactor : Int) : Int :=
  jsDiv (profit * marginFactor) 1000

/-- Opportunity record emitted by the simple-arbitrage path; only fields the
claims depend on are carried (token strings, symbols, prices and the float
percent field are omitted). -/
structure SimpleOpportunity where
  amountIn : Int
  amountOut : Int
  estimatedProfit : Int
  netProfit : Int
  gasEstimate : Int
  priceImpact : ℚ

/-- Core of `ArbitrageDetector.simulateArbitrage`
(src/src/workers/arbDetector.ts:240-386) after reserve orientation: run the
simple simulation (a thrown error is caught and yields no opportunity),
discard unprofitable results, apply the margin haircut, discard non-positive
adjusted profit, and emit the record with `estimatedProfit = result.profit`
and `netProfit = adjustedProfit`. -/
def simulateArbitrageOpp (amountIn : Int) (reservesA reservesB : Int × Int)
    (gasEstimate marginFactor : Int) : Option SimpleOpportunity :=
  match SimulatorService.simulateSimpleArbitrage amountIn reservesA reservesB
      gasEstimate with
  | .error _ => none
  | .ok result =>
    if result.isProfitable = true then
      if adjustProfit result.profit marginFactor ≤ 0 then none
      else some ⟨amountIn, result.amountOut, result.profit,
        adjustProfit result.profit marginFactor, gasEstimate,
        max result.priceImpactA result.priceImpactB⟩
    else none

/-- Triangular opportunity record; tokens are abstract identifiers. -/
structure TriOpportunity where
  amountIn : Int
  amountOut : Int
  estimatedProfit : Int
  netProfit : Int
  gasEstimate : Int
  intermediateToken : Nat
  tokenPath : List Nat
  amounts : List Int
  priceImpacts : List ℚ

/-- One candidate size of `ArbitrageDetector.checkTriangularArbitrage`
(src/src/workers/arbDetector.ts:466-537): simulate the 3-hop cycle (a thrown
error is caught and the size is skipped), and accept the size when the
result is profitable and its margin-adjusted profit exceeds `minProfitWei`. -/
def evalTriSize (reservesAB reservesBC reservesCA : Int × Int)
    (gasEstimate marginFactor minProfitWei : Int)
    (tokenA tokenB tokenC : Nat) (amountIn : Int) : Option TriOpportunity :=
  match SimulatorService.simulateTriangularArbitrage amountIn reservesAB
      reservesBC reservesCA gasEstimate with
  | .error _ => none
  | .ok result =>
    if result.isProfitable = true then
      if minProfitWei < adjustProfit result.profit marginFactor then
        some ⟨amountIn, result.amountOut, result.profit,
          adjustProfit result.profit marginFactor, gasEstimate,
          tokenB, [tokenA, tokenB, tokenC, tokenA],
          result.amounts, result.priceImpacts⟩
      else none
    else none

/-- The size loop of `checkTriangularArbitrage`: candidate sizes are tried in
order and the first accepted one is returned (early exit). -/
def checkTriangularArbitrage (reservesAB reservesBC reservesCA : Int × Int)
    (gasEstimate marginFactor minProfitWei : Int)
    (tokenA tokenB tokenC : Nat) : List Int → Option TriOpportunity
  | [] => none
  | a :: rest =>
    match evalTriSize reservesAB reservesBC reservesCA gasEstimate marginFactor
        minProfitWei tokenA tokenB tokenC a with
    | some opp => some opp
    | none => checkTriangularArbitrage reservesAB reservesBC reservesCA
        gasEstimate marginFactor minProfitWei tokenA tokenB tokenC rest

/-- The fixed candidate sizes `[parseEther "0.1", parseEther "1",
parseEther "10"]` of the triangular scan. -/
def triangularSizes : List Int := [10 ^ 17, 10 ^ 18, 10 ^ 19]

end ArbitrageDetector

/-- `Int.tdiv` on two natural numbers is natural-number (floor) division. -/
theorem jsDiv_natCast (m n : ℕ) : jsDiv (↑m) (↑n) = ((m / n : ℕ) : ℤ) := rfl

/-- For nonnegative operands, JS truncating division is floor division. -/
theorem jsDiv_eq_natDiv (a b : Int) (ha : 0 ≤ a) (hb : 0 ≤ b) :
    jsDiv a b = ((a.toNat / b.toNat : ℕ) : ℤ) := by
  obtain ⟨m, rfl⟩ := Int.eq_ofNat_of_zero_le ha
  obtain ⟨n, rfl⟩ := Int.eq_ofNat_of_zero_le hb
  rfl

/-- The truncating midpoint of an ordered pair stays inside the interval. -/
theorem jsDiv_two_mem (l r : Int) (h : l ≤ r) :
    l ≤ jsDiv (l + r) 2 ∧ jsDiv (l + r) 2 ≤ r := by
  by_cases hs : 0 ≤ l + r
  · rw [jsDiv_eq_natDiv (l + r) 2 hs (by norm_num),
      show (2 : ℤ).toNat = 2 from rfl]
    omega
  · have hneg : jsDiv (l + r) 2 = -(jsDiv (-(l + r)) 2) := by
      unfold jsDiv
      rw [← Int.neg_tdiv, neg_neg]
    rw [hneg, jsDiv_eq_natDiv (-(l + r)) 2 (by omega) (by norm_num),
      show (2 : ℤ).toNat = 2 from rfl]
    omega

/-- Floor division is antitone-compatible with cross-multiplied bounds:
`N1/D1 ≤ N2/D2` as soon as `N1·D2 ≤ N2·D1`. -/
theorem natDiv_le_natDiv (N1 D1 N2 D2 : ℕ) (hD1 : 0 < D1) (hD2 : 0 < D2)
    (h : N1 * D2 ≤ N2 * D1) : N1 / D1 ≤ N2 / D2 := by
  rw [Nat.le_div_iff_mul_le hD2]
  have h1 : N1 / D1 * D1 ≤ N1 := Nat.div_mul_le_self N1 D1
  have h2 : N1 / D1 * D2 * D1 ≤ N2 * D1 := by
    calc N1 / D1 * D2 * D1 = (N1 / D1 * D1) * D2 := by ring
    _ ≤ N1 * D2 := Nat.mul_le_mul_right _ h1
    _ ≤ N2 * D1 := h
  exact Nat.le_of_mul_le_mul_right h2 hD1

/-- The ℕ-level constant-product output is strictly below the output reserve. -/
theorem amountOutNat_lt (a r R : ℕ) (hr : 0 < r) (hR : 0 < R) :
    a * 997 * R / (r * 1000 + a * 997) < R := by
  rw [Nat.div_lt_iff_lt_mul (by positivity)]
  nlinarith

/-- The ℕ-level constant-product output is monotone in the input amount. -/
theorem amountOutNat_mono (a1 a2 r R : ℕ) (hr : 0 < r) (h : a1 ≤ a2) :
    a1 * 997 * R / (r * 1000 + a1 * 997) ≤ a2 * 997 * R / (r * 1000 + a2 * 997) := by
  apply natDiv_le_natDiv _ _ _ _ (by positivity) (by positivity)
  nlinarith [Nat.mul_le_mul_right (997 * R * (r * 1000)) h]

/-- ℕ-level round trip: if `y` is the constant-product output for input `x`,
then the inverse formula applied to `y` is at most `x + 1`. -/
theorem roundTripNat (x r R y : ℕ) (hr : 0 < r) (hR : 0 < R)
    (hy : y = x * 997 * R / (r * 1000 + x * 997)) :
    (r * y * 1000) / ((R - y) * 997) + 1 ≤ x + 1 := by
  have hyR : y < R := hy ▸ amountOutNat_lt x r R hr hR
  have hd : 0 < R - y := by omega
  have hkey : y * (r * 1000 + x * 997) ≤ x * 997 * R := by
    rw [hy]; exact Nat.div_mul_le_self _ _
  have hexp : x * 997 * R = x * 997 * y + x * 997 * (R - y) := by
    have hsum : y + (R - y) = R := by omega
    calc x * 997 * R = x * 997 * (y + (R - y)) := by rw [hsum]
    _ = x * 997 * y + x * 997 * (R - y) := by ring
  have hmain : (r * y * 1000) / ((R - y) * 997) ≤ x := by
    rw [← Nat.lt_succ_iff, Nat.div_lt_iff_lt_mul (by positivity)]
    nlinarith
  omega

namespace SimulatorService

/-- For positive arguments, `getAmountOut` succeeds with the floor-division
value of the constant-product formula, computed in ℕ. -/
theorem getAmountOut_pos (amountIn reserveIn reserveOut : Int)
    (h1 : 0 < amountIn) (h2 : 0 < reserveIn) (h3 : 0 < reserveOut) :
    getAmountOut amountIn reserveIn reserveOut =
      .ok (((amountIn.toNat * 997 * reserveOut.toNat) /
        (reserveIn.toNat * 1000 + amountIn.toNat * 997) : ℕ) : ℤ) := by
  unfold getAmountOut
  rw [if_neg (by omega), if_neg (by omega)]
  show Except.ok (jsDiv (amountIn * 997 * reserveOut) (reserveIn * 1000 + amountIn * 997)) = _
  have e1 : amountIn * 997 * reserveOut =
      ((amountIn.toNat * 997 * reserveOut.toNat : ℕ) : ℤ) := by
    push_cast [Int.toNat_of_nonneg h1.le, Int.toNat_of_nonneg h3.le]
    ring
  have e2 : reserveIn * 1000 + amountIn * 997 =
      ((reserveIn.toNat * 1000 + amountIn.toNat * 997 : ℕ) : ℤ) := by
    push_cast [Int.toNat_of_nonneg h2.le, Int.toNat_of_nonneg h1.le]
    ring
  rw [e1, e2, jsDiv_natCast]

/-- For in-range arguments, `getAmountIn` succeeds with the floor-division
value of the inverse formula plus one, computed in ℕ. -/
theorem getAmountIn_pos (amountOut reserveIn reserveOut : Int)
    (h1 : 0 < amountOut) (h2 : 0 < reserveIn) (h3 : amountOut < reserveOut) :
    getAmountIn amountOut reserveIn reserveOut =
      .ok ((((reserveIn.toNat * amountOut.toNat * 1000) /
        ((reserveOut.toNat - amountOut.toNat) * 997) : ℕ) : ℤ) + 1) := by
  unfold getAmountIn
  rw [if_neg (by omega), if_neg (by omega), if_neg (by omega)]
  show Except.ok (jsDiv (reserveIn * amountOut * 1000) ((reserveOut - amountOut) * 997) + 1) = _
  have hle : amountOut.toNat ≤ reserveOut.toNat := by omega
  have e1 : reserveIn * amountOut * 1000 =
      ((reserveIn.toNat * amountOut.toNat * 1000 : ℕ) : ℤ) := by
    push_cast [Int.toNat_of_nonneg h2.le, Int.toNat_of_nonneg h1.le]
    ring
  have e2 : (reserveOut - amountOut) * 997 =
      (((reserveOut.toNat - amountOut.toNat) * 997 : ℕ) : ℤ) := by
    push_cast [Nat.cast_sub hle, Int.toNat_of_nonneg h1.le,
      Int.toNat_of_nonneg (show (0:ℤ) ≤ reserveOut by omega)]
    ring
  rw [e1, e2, jsDiv_natCast]

/-- **C1.** `getAmountOut` returns exactly
`floor(amountIn·997·reserveOut / (reserveIn·1000 + amountIn·997))` in exact
integer arithmetic (ℕ floor division after coercion) whenever all three inputs
are positive; it fails with `InsufficientInputAmount` exactly when
`amountIn ≤ 0`, and with `InsufficientLiquidity` when `amountIn > 0` and
either reserve is `≤ 0`. -/
theorem getAmountOut_correct (amountIn reserveIn reserveOut : Int) :
    (0 < amountIn → 0 < reserveIn → 0 < reserveOut →
      getAmountOut amountIn reserveIn reserveOut =
        .ok (((amountIn.toNat * 997 * reserveOut.toNat) /
          (reserveIn.toNat * 1000 + amountIn.toNat * 997) : ℕ) : ℤ)) ∧
    (getAmountOut amountIn reserveIn reserveOut = .error .InsufficientInputAmount ↔
      amountIn ≤ 0) ∧
    (0 < amountIn → (reserveIn ≤ 0 ∨ reserveOut ≤ 0) →
      getAmountOut amountIn reserveIn reserveOut = .error .InsufficientLiquidity) := by
  refine ⟨fun h1 h2 h3 => getAmountOut_pos _ _ _ h1 h2 h3, ?_, ?_⟩
  · unfold getAmountOut
    split_ifs with h h' <;> simp_all
  · intro h1 h2
    unfold getAmountOut
    rw [if_neg (by omega), if_pos h2]

/-- Witness for C1 at concrete inputs. -/
theorem getAmountOut_correct_witness :
    getAmountOut 5 3 7 = .ok 4 ∧
    getAmountOut (-1) 3 7 = .error .InsufficientInputAmount ∧
    getAmountOut 5 0 7 = .error .InsufficientLiquidity :=
  ⟨((getAmountOut_correct 5 3 7).1 (by norm_num) (by norm_num) (by norm_num)).trans (by rfl),
   (getAmountOut_correct (-1) 3 7).2.1.mpr (by norm_num),
   (getAmountOut_correct 5 0 7).2.2 (by norm_num) (Or.inl (by norm_num))⟩

/-- **C4.** For positive reserves and positive inputs, `getAmountOut` is
strictly below `reserveOut`, and is monotone non-decreasing in `amountIn`. -/
theorem getAmountOut_bounded_monotone (amountIn1 amountIn2 reserveIn reserveOut : Int) :
    (0 < amountIn1 → 0 < reserveIn → 0 < reserveOut →
      ∀ out, getAmountOut amountIn1 reserveIn reserveOut = .ok out → out < reserveOut) ∧
    (0 < amountIn1 → amountIn1 ≤ amountIn2 → 0 < reserveIn → 0 < reserveOut →
      ∀ out1 out2, getAmountOut amountIn1 reserveIn reserveOut = .ok out1 →
        getAmountOut amountIn2 reserveIn reserveOut = .ok out2 → out1 ≤ out2) := by
  constructor
  · intro h1 h2 h3 out hout
    rw [getAmountOut_pos _ _ _ h1 h2 h3] at hout
    injection hout with hout
    subst hout
    have hb := amountOutNat_lt amountIn1.toNat reserveIn.toNat reserveOut.toNat
      (by omega) (by omega)
    omega
  · intro h1 h12 h2 h3 out1 out2 hout1 hout2
    rw [getAmountOut_pos _ _ _ h1 h2 h3] at hout1
    rw [getAmountOut_pos _ _ _ (by omega) h2 h3] at hout2
    injection hout1 with hout1
    injection hout2 with hout2
    subst hout1; subst hout2
    have hm := amountOutNat_mono amountIn1.toNat amountIn2.toNat
      reserveIn.toNat reserveOut.toNat (by omega) (by omega)
    omega

/-- Witness for C4 at concrete inputs. -/
theorem getAmountOut_bounded_monotone_witness :
    (getAmountOut 5 3 7 = .ok 4 → (4:ℤ) < 7) ∧ ((4:ℤ) ≤ 4) :=
  ⟨fun h => (getAmountOut_bounded_monotone 5 6 3 7).1
      (by norm_num) (by norm_num) (by norm_num) 4 h,
   (getAmountOut_bounded_monotone 5 6 3 7).2 (by norm_num) (by norm_num)
      (by norm_num) (by norm_num) 4 4 (by rfl) (by rfl)⟩

/-- **C5 (counterexample).** The claimed round-trip inequality
`getAmountIn (getAmountOut x rin rout) rin rout ≥ x` fails at
`x = 100, rin = 10, rout = 2`: the forward output is `1`, whose required
input is only `11 < 100`. -/
theorem roundTrip_counterexample :
    getAmountOut 100 10 2 = .ok 1 ∧
    getAmountIn 1 10 2 = .ok 11 ∧ ¬ ((100:ℤ) ≤ 11) :=
  ⟨rfl, rfl, by norm_num⟩

/-- **C5 (amended).** For valid inputs whose forward output is positive, the
inverse formula applied to the forward output never exceeds `x + 1` (the `+1`
rounding); the original `≥ x` direction is refuted by
`roundTrip_counterexample`. -/
theorem roundTrip_le_succ (x rin rout y : Int) :
    0 < x → 0 < rin → 0 < rout →
    getAmountOut x rin rout = .ok y → 0 < y →
    ∃ z, getAmountIn y rin rout = .ok z ∧ z ≤ x + 1 := by
  intro hx hr hR hout hy
  rw [getAmountOut_pos _ _ _ hx hr hR] at hout
  injection hout with hout
  have hyR : y < rout := by
    have hb := amountOutNat_lt x.toNat rin.toNat rout.toNat (by omega) (by omega)
    omega
  refine ⟨_, getAmountIn_pos _ _ _ hy hr hyR, ?_⟩
  have hynat : y.toNat = x.toNat * 997 * rout.toNat /
      (rin.toNat * 1000 + x.toNat * 997) := by omega
  have := roundTripNat x.toNat rin.toNat rout.toNat y.toNat
    (by omega) (by omega) hynat
  omega

/-- Witness for the amended C5 at concrete inputs. -/
theorem roundTrip_le_succ_witness :
    ∃ z, getAmountIn 4 3 7 = .ok z ∧ z ≤ 5 + 1 :=
  roundTrip_le_succ 5 3 7 4 (by norm_num) (by norm_num) (by norm_num)
    (by rfl) (by norm_num)

/-- Per-hop characterisation of a successful `getAmountsOutAux` run. -/
theorem getAmountsOutAux_spec (reserves : List (Int × Int)) (prev : Int) (tail : List Int)
    (h : getAmountsOutAux prev reserves = .ok tail) :
    tail.length = reserves.length ∧
    ∀ (i : ℕ) a b rin rout, (prev :: tail)[i]? = some a → tail[i]? = some b →
      reserves[i]? = some (rin, rout) → getAmountOut a rin rout = .ok b := by
  induction reserves generalizing prev tail with
  | nil =>
    injection h with h
    subst h
    refine ⟨rfl, ?_⟩
    intro i a b rin rout _ _ hr
    rw [List.getElem?_nil] at hr
    exact absurd hr (by simp)
  | cons hd rest ih =>
    obtain ⟨rin0, rout0⟩ := hd
    rw [getAmountsOutAux] at h
    cases h1 : getAmountOut prev rin0 rout0 with
    | error e => simp only [h1] at h; exact absurd h (by simp)
    | ok next =>
      simp only [h1] at h
      cases h2 : getAmountsOutAux next rest with
      | error e => simp only [h2] at h; exact absurd h (by simp)
      | ok tl =>
        simp only [h2] at h
        have h' : next :: tl = tail := by injection h
        subst h'
        obtain ⟨ihlen, ihel⟩ := ih next tl h2
        refine ⟨by simp [ihlen], ?_⟩
        intro i a b rin rout ha hb hr
        match i with
        | 0 =>
          simp only [List.getElem?_cons_zero] at ha hb hr
          injection ha with ha
          injection hb with hb
          injection hr with hr
          subst ha; subst hb
          cases hr
          exact h1
        | i + 1 =>
          simp only [List.getElem?_cons_succ] at ha hb hr
          exact ihel i a b rin rout ha hb hr

/-- **C6 (counterexample).** `getAmountsOut` does not return a sequence for
*every* amount and reserve list: an empty reserve list throws
`Invalid reserves array` (the claim would require the length-1 result
`[amountIn]`), and a zero input amount propagates
`INSUFFICIENT_INPUT_AMOUNT` from the first hop. -/
theorem getAmountsOut_counterexample :
    getAmountsOut 5 [] = .error .InvalidReservesArray ∧
    getAmountsOut 0 [(10, 10)] = .error .InsufficientInputAmount ∧
    ∀ amts : List Int, getAmountsOut 5 [] ≠ .ok amts :=
  ⟨rfl, rfl, fun _ h => Except.noConfusion h⟩

/-- **C6 (amended).** Whenever `getAmountsOut amountIn reserves` succeeds, the
returned sequence has length `N + 1`, its first element is `amountIn`, and
each element `i+1` is the successful `getAmountOut` image of element `i`
through reserve pair `i`. -/
theorem getAmountsOut_correct (amountIn : Int) (reserves : List (Int × Int))
    (amts : List Int) :
    getAmountsOut amountIn reserves = .ok amts →
    amts.length = reserves.length + 1 ∧
    amts.head? = some amountIn ∧
    ∀ (i : ℕ) a b rin rout, amts[i]? = some a → amts[i + 1]? = some b →
      reserves[i]? = some (rin, rout) → getAmountOut a rin rout = .ok b := by
  intro h
  unfold getAmountsOut at h
  split_ifs at h with hemp
  cases h2 : getAmountsOutAux amountIn reserves with
  | error e => rw [h2] at h; exact absurd h (by simp)
  | ok tail =>
    rw [h2] at h
    have h' : amountIn :: tail = amts := by injection h
    subst h'
    obtain ⟨hlen, hel⟩ := getAmountsOutAux_spec reserves amountIn tail h2
    refine ⟨by simp [hlen], rfl, ?_⟩
    intro i a b rin rout ha hb hr
    simp only [List.getElem?_cons_succ] at hb
    exact hel i a b rin rout ha hb hr

/-- Witness for the amended C6 at concrete inputs. -/
theorem getAmountsOut_correct_witness :
    ([5, 4, 4] : List Int).length = ([(3, 7), (4, 9)] : List (Int × Int)).length + 1 ∧
    ([5, 4, 4] : List Int).head? = some 5 ∧
    ∀ (i : ℕ) a b rin rout, ([5, 4, 4] : List Int)[i]? = some a →
      ([5, 4, 4] : List Int)[i + 1]? = some b →
      ([(3, 7), (4, 9)] : List (Int × Int))[i]? = some (rin, rout) →
      getAmountOut a rin rout = .ok b :=
  getAmountsOut_correct 5 [(3, 7), (4, 9)] [5, 4, 4] (by rfl)

/-- **C3 (counterexample).** `calculatePriceImpact` does *not* return `0`
whenever any of its four inputs is zero: `amountOut` is unguarded, and
`calculatePriceImpact 1 0 1 1 = 100 ≠ 0`. -/
theorem calculatePriceImpact_counterexample :
    calculatePriceImpact 1 0 1 1 = 100 ∧ (100 : ℚ) ≠ 0 := by
  constructor
  · have e1 : jsDiv ((1:ℤ) * 10 ^ 18) 1 = 10 ^ 18 := by decide
    have e2 : jsDiv ((0:ℤ) * 10 ^ 18) 1 = 0 := by decide
    have e3 : jsDiv (((10:ℤ) ^ 18 - 0) * 10000) (10 ^ 18) = 10000 := by decide
    unfold calculatePriceImpact
    rw [if_neg (by norm_num)]
    show (if jsDiv ((1:ℤ) * 10 ^ 18) 1 ≤ 0 then (0:ℚ)
      else ((jsDiv ((jsDiv ((1:ℤ) * 10 ^ 18) 1 - jsDiv ((0:ℤ) * 10 ^ 18) 1) * 10000)
        (jsDiv ((1:ℤ) * 10 ^ 18) 1) : ℤ) : ℚ) / 100) = 100
    rw [e1, e2, e3, if_neg (by norm_num)]
    norm_num
  · norm_num

/-- **C3 (amended).** `calculatePriceImpact` never fails (it is a total
function); it returns `0` whenever `amountIn`, `reserveIn` or `reserveOut` is
non-positive (`amountOut` is not guarded), and also when the scaled spot
price floors to zero; otherwise it returns the truncated basis-point impact
`(spotPrice − executionPrice)·10000 / spotPrice` divided by 100, with
`spotPrice = ⌊reserveOut·10^18 / reserveIn⌋` and
`executionPrice = trunc(amountOut·10^18 / amountIn)`. -/
theorem calculatePriceImpact_amended (amountIn amountOut reserveIn reserveOut : Int) :
    ((amountIn ≤ 0 ∨ reserveIn ≤ 0 ∨ reserveOut ≤ 0) →
      calculatePriceImpact amountIn amountOut reserveIn reserveOut = 0) ∧
    (0 < amountIn → 0 < reserveIn → 0 < reserveOut →
      reserveOut * 10 ^ 18 < reserveIn →
      calculatePriceImpact amountIn amountOut reserveIn reserveOut = 0) ∧
    (0 < amountIn → 0 < reserveIn → 0 < reserveOut →
      reserveIn ≤ reserveOut * 10 ^ 18 →
      calculatePriceImpact amountIn amountOut reserveIn reserveOut =
        ((jsDiv ((jsDiv (reserveOut * 10 ^ 18) reserveIn -
            jsDiv (amountOut * 10 ^ 18) amountIn) * 10000)
          (jsDiv (reserveOut * 10 ^ 18) reserveIn) : ℤ) : ℚ) / 100) := by
  have hspot : 0 < reserveIn → 0 < reserveOut →
      (jsDiv (reserveOut * 10 ^ 18) reserveIn ≤ 0 ↔
        reserveOut * 10 ^ 18 < reserveIn) := by
    intro h2 h3
    have hprod : (reserveOut * 10 ^ 18).toNat = reserveOut.toNat * 10 ^ 18 := by
      have e : reserveOut * 10 ^ 18 = ((reserveOut.toNat * 10 ^ 18 : ℕ) : ℤ) := by
        push_cast [Int.toNat_of_nonneg h3.le]
        ring
      rw [e, Int.toNat_natCast]
    rw [jsDiv_eq_natDiv _ _ (by positivity) h2.le, hprod]
    have hdiv : reserveOut.toNat * 10 ^ 18 / reserveIn.toNat = 0 ↔
        reserveOut.toNat * 10 ^ 18 < reserveIn.toNat :=
      Nat.div_eq_zero_iff (by omega)
    constructor
    · intro hle
      have h0 : reserveOut.toNat * 10 ^ 18 / reserveIn.toNat = 0 := by
        revert hle
        generalize reserveOut.toNat * 10 ^ 18 / reserveIn.toNat = D
        intro hle
        omega
      have := hdiv.mp h0
      omega
    · intro hlt
      have h0 : reserveOut.toNat * 10 ^ 18 / reserveIn.toNat = 0 :=
        hdiv.mpr (by omega)
      rw [h0]
      simp
  refine ⟨?_, ?_, ?_⟩
  · intro h
    unfold calculatePriceImpact
    rw [if_pos (by tauto)]
  · intro h1 h2 h3 hlt
    unfold calculatePriceImpact
    rw [if_neg (by omega)]
    show (if jsDiv (reserveOut * 10 ^ 18) reserveIn ≤ 0 then (0:ℚ)
      else ((jsDiv ((jsDiv (reserveOut * 10 ^ 18) reserveIn -
          jsDiv (amountOut * 10 ^ 18) amountIn) * 10000)
        (jsDiv (reserveOut * 10 ^ 18) reserveIn) : ℤ) : ℚ) / 100) = 0
    rw [if_pos ((hspot h2 h3).mpr hlt)]
  · intro h1 h2 h3 hge
    unfold calculatePriceImpact
    rw [if_neg (by omega)]
    show (if jsDiv (reserveOut * 10 ^ 18) reserveIn ≤ 0 then (0:ℚ)
      else ((jsDiv ((jsDiv (reserveOut * 10 ^ 18) reserveIn -
          jsDiv (amountOut * 10 ^ 18) amountIn) * 10000)
        (jsDiv (reserveOut * 10 ^ 18) reserveIn) : ℤ) : ℚ) / 100) = _
    rw [if_neg (by rw [hspot h2 h3]; omega)]

/-- Witness for the amended C3 at concrete inputs. -/
theorem calculatePriceImpact_amended_witness :
    calculatePriceImpact 0 5 3 7 = 0 ∧
    calculatePriceImpact 10 19 100 200 = 5 :=
  ⟨(calculatePriceImpact_amended 0 5 3 7).1 (Or.inl (by norm_num)),
   ((calculatePriceImpact_amended 10 19 100 200).2.2 (by norm_num) (by norm_num)
      (by norm_num) (by norm_num)).trans (by
    have e : jsDiv ((jsDiv ((200:ℤ) * 10 ^ 18) 100 - jsDiv ((19:ℤ) * 10 ^ 18) 10) *
        10000) (jsDiv ((200:ℤ) * 10 ^ 18) 100) = 500 := by decide
    rw [e]
    norm_num)⟩

/-- The binary-search loop returns an amount inside `[minA, maxA]` whenever
its bounds and running best lie there. -/
theorem findOptimalGo_in_range (reservesA reservesB : Int × Int)
    (gasEstimate : Int) (minA maxA : Int) :
    ∀ (n : Nat) (left right best bp : Int), minA ≤ left → right ≤ maxA →
      left ≤ right → minA ≤ best → best ≤ maxA →
      minA ≤ findOptimalGo reservesA reservesB gasEstimate n left right best bp ∧
      findOptimalGo reservesA reservesB gasEstimate n left right best bp ≤ maxA := by
  intro n
  induction n with
  | zero => intro left right best bp _ _ _ hb1 hb2; exact ⟨hb1, hb2⟩
  | succ m ih =>
    intro left right best bp hl hr hlr hb1 hb2
    obtain ⟨hm1, hm2⟩ := jsDiv_two_mem left right hlr
    simp only [findOptimalGo]
    cases hsim : simulateSimpleArbitrage (jsDiv (left + right) 2)
        reservesA reservesB gasEstimate with
    | ok result =>
      simp only [hsim]
      by_cases hprof : result.isProfitable = true
      · simp only [if_pos hprof]
        by_cases hc : right ≤ jsDiv (left + right) 2 + 1
        · rw [if_pos hc]
          constructor <;> split <;> omega
        · rw [if_neg hc]
          apply ih <;> omega
      · simp only [if_neg hprof]
        by_cases hc : jsDiv (left + right) 2 - 1 ≤ left
        · rw [if_pos hc]
          constructor <;> split <;> omega
        · rw [if_neg hc]
          apply ih <;> omega
    | error e =>
      simp only [hsim]
      by_cases hc : jsDiv (left + right) 2 - 1 ≤ left
      · rw [if_pos hc]
        exact ⟨hb1, hb2⟩
      · rw [if_neg hc]
        apply ih <;> omega

/-- **C10.** For every `minAmount ≤ maxAmount`, any reserve pairs, any gas
estimate and any iteration budget, `findOptimalAmount` is total (the
embedding catches a failing simulation and shrinks the range, mirroring the
source's `try/catch`) and returns an amount in `[minAmount, maxAmount]`. -/
theorem findOptimalAmount_in_range (minAmount maxAmount : Int)
    (reservesA reservesB : Int × Int) (gasEstimate : Int) (iterations : Nat)
    (h : minAmount ≤ maxAmount) :
    minAmount ≤ findOptimalAmount minAmount maxAmount reservesA reservesB
        gasEstimate iterations ∧
    findOptimalAmount minAmount maxAmount reservesA reservesB gasEstimate
        iterations ≤ maxAmount :=
  findOptimalGo_in_range reservesA reservesB gasEstimate minAmount maxAmount
    iterations minAmount maxAmount minAmount (-1) le_rfl le_rfl h le_rfl h

/-- Witness for C10 at concrete inputs (including a range on which some
midpoints make the simulation throw). -/
theorem findOptimalAmount_in_range_witness :
    1 ≤ findOptimalAmount 1 (10 ^ 19) (100, 200) (200, 100) 5 20 ∧
    findOptimalAmount 1 (10 ^ 19) (100, 200) (200, 100) 5 20 ≤ 10 ^ 19 :=
  findOptimalAmount_in_range 1 (10 ^ 19) (100, 200) (200, 100) 5 20
    (by norm_num)

end SimulatorService

namespace RateLimiter

/-- Splitting admissibility at the last dispatch. -/
theorem admissibleFrom_append (opts : RateLimiterOptions) (l : List Int)
    (t : Int) (prev : List Int) :
    admissibleFrom opts prev (l ++ [t]) ↔
      admissibleFrom opts prev l ∧ canMakeRequest opts t (prev ++ l) = true := by
  induction l generalizing prev with
  | nil => simp [admissibleFrom]
  | cons x l' ih =>
    simp only [List.cons_append, admissibleFrom, List.append_eq]
    rw [ih]
    simp [and_assoc, List.append_assoc]

/-- Any admissible dispatch trace has at most `maxRequests` dispatches in
every half-open sliding window of length `timeWindow`. -/
theorem admissible_window_bound (opts : RateLimiterOptions) (d : List Int) :
    Admissible opts d →
      ∀ s : Int, d.countP (inWindow opts s) ≤ opts.maxRequests := by
  induction d using List.reverseRecOn with
  | nil => intro _ s; simp
  | append_singleton l t ih =>
    intro h s
    obtain ⟨hl, hcheck⟩ := (admissibleFrom_append opts l t []).mp h
    rw [List.nil_append] at hcheck
    rw [List.countP_append]
    by_cases hw : inWindow opts s t = true
    · have himp : ∀ x ∈ l, inWindow opts s x = true →
          (fun u => decide (t - opts.timeWindow < u)) x = true := by
        intro x _ hx
        simp only [inWindow, Bool.and_eq_true, decide_eq_true_eq] at hx hw
        simp only [decide_eq_true_eq]
        omega
      have hsub : l.countP (inWindow opts s) ≤
          (cleanOldRequests opts t l).length := by
        rw [cleanOldRequests, ← List.countP_eq_length_filter]
        exact List.countP_mono_left himp
      have hlen : (cleanOldRequests opts t l).length < opts.maxRequests := by
        simpa [canMakeRequest] using hcheck
      have hsing : List.countP (inWindow opts s) [t] ≤ 1 := by
        simp [List.countP_cons, hw]
      omega
    · have hsing : List.countP (inWindow opts s) [t] = 0 := by
        simp [List.countP_cons, hw]
      have := ih hl s
      omega

/-- **C2 (counterexample).** The minimum-interval half of the claim fails:
with `maxRequests = 10, timeWindow = 1000, minInterval = 100`, submissions at
times 0 and 50 produce dispatches at 0 and 50 — two consecutive dispatched
calls only 50 ms apart, because `canMakeRequest` never checks `minInterval`
and the post-dispatch sleep is skipped when the queue drains. -/
theorem rateLimiter_minInterval_counterexample :
    (simRun ⟨10, 1000, 100⟩ 6 (initState [0, 50])).dispatches = [0, 50] ∧
    ((50 : Int) - 0 < (⟨10, 1000, 100⟩ : RateLimiterOptions).minInterval) := by
  constructor
  · decide
  · norm_num

/-- Cleaning at a later instant subsumes cleaning at an earlier one. -/
theorem clean_clean (opts : RateLimiterOptions) (t now : Int) (h : now ≤ t)
    (l : List Int) :
    cleanOldRequests opts t (cleanOldRequests opts now l) =
      cleanOldRequests opts t l := by
  unfold cleanOldRequests
  rw [List.filter_filter]
  apply List.filter_congr
  intro a _
  by_cases h1 : t - opts.timeWindow < a
  · have h2 : now - opts.timeWindow < a := by omega
    simp [h1, h2]
  · simp [h1]

/-- `getWaitTime` is never negative. -/
theorem getWaitTime_nonneg (opts : RateLimiterOptions)
    (now lastRequestTime : Int) (requests : List Int) :
    0 ≤ getWaitTime opts now lastRequestTime requests := by
  unfold getWaitTime
  split
  · exact le_rfl
  · exact le_trans (le_max_right _ 0) (le_max_right _ _)

theorem simStep_inv (opts : RateLimiterOptions) (hmin : 0 ≤ opts.minInterval)
    (s : SimState) (h : Inv opts s) : Inv opts (simStep opts s) := by
  obtain ⟨hclean, hadm⟩ := h
  unfold simStep
  by_cases h1 : s.processing = false
  · rw [if_pos h1]
    by_cases h2 : 0 < s.queue
    · rw [if_pos h2]
      exact ⟨hclean, hadm⟩
    · rw [if_neg h2]
      cases harr : s.arrivals with
      | nil => exact ⟨hclean, hadm⟩
      | cons a rest =>
        refine ⟨?_, hadm⟩
        intro t ht
        exact hclean t (le_trans (le_max_left _ _) ht)
  · rw [if_neg h1]
    by_cases h2 : s.queue = 0
    · rw [if_pos h2]
      exact ⟨hclean, hadm⟩
    · rw [if_neg h2]
      by_cases h3 : canMakeRequest opts s.now s.requests = true
      · rw [if_pos h3]
        have hreq : ∀ t, s.now ≤ t →
            cleanOldRequests opts t
                (cleanOldRequests opts s.now s.requests ++ [s.now]) =
              cleanOldRequests opts t (s.dispatches ++ [s.now]) := by
          intro t ht
          rw [cleanOldRequests, List.filter_append, ← cleanOldRequests,
            ← cleanOldRequests, clean_clean opts t s.now ht, hclean t ht,
            cleanOldRequests, cleanOldRequests, ← List.filter_append]
          rfl
        have hadm' : Admissible opts (s.dispatches ++ [s.now]) := by
          rw [Admissible, admissibleFrom_append]
          refine ⟨hadm, ?_⟩
          rw [List.nil_append]
          unfold canMakeRequest at h3 ⊢
          rw [← hclean s.now le_rfl]
          exact h3
        by_cases h4 : 0 < s.queue - 1
        · rw [if_pos h4]
          refine ⟨?_, hadm'⟩
          intro t ht
          have ht' : s.now + opts.minInterval ≤ t := ht
          exact hreq t (by omega)
        · rw [if_neg h4]
          exact ⟨hreq, hadm'⟩
      · rw [if_neg h3]
        refine ⟨?_, hadm⟩
        intro t ht
        have hw : 0 ≤ getWaitTime opts s.now s.lastRequestTime s.requests :=
          getWaitTime_nonneg opts s.now s.lastRequestTime s.requests
        have ht' : s.now + getWaitTime opts s.now s.lastRequestTime s.requests ≤ t := ht
        have hts : s.now ≤ t := by omega
        show cleanOldRequests opts t (cleanOldRequests opts s.now s.requests) =
          cleanOldRequests opts t s.dispatches
        rw [clean_clean opts t s.now hts]
        exact hclean t hts

theorem simRun_inv (opts : RateLimiterOptions) (hmin : 0 ≤ opts.minInterval)
    (n : Nat) (s : SimState) (h : Inv opts s) : Inv opts (simRun opts n s) := by
  induction n generalizing s with
  | zero => exact h
  | succ m ih => exact ih (simStep opts s) (simStep_inv opts hmin s h)

/-- **C2 (amended).** For every submission schedule, the modelled rate limiter
dispatches at most `maxRequests` calls in every half-open sliding window
`(s, s + timeWindow]`; the minimum-interval half of the original claim is
refuted by `rateLimiter_minInterval_counterexample` (spacing is enforced only
between dispatches of one uninterrupted processing run). -/
theorem rateLimiter_window_bound (opts : RateLimiterOptions)
    (hmin : 0 ≤ opts.minInterval) (fuel : Nat) (arrivals : List Int) (s : Int) :
    ((simRun opts fuel (initState arrivals)).dispatches.countP
      (inWindow opts s)) ≤ opts.maxRequests := by
  have hinv : Inv opts (initState arrivals) := ⟨fun t _ => rfl, trivial⟩
  have hfin := simRun_inv opts hmin fuel (initState arrivals) hinv
  exact admissible_window_bound opts _ hfin.2 s

/-- Witness for the amended C2 at a concrete schedule. -/
theorem rateLimiter_window_bound_witness :
    ((simRun ⟨2, 100, 10⟩ 12 (initState [0, 5, 8, 30])).dispatches.countP
      (inWindow ⟨2, 100, 10⟩ 0)) ≤ 2 :=
  rateLimiter_window_bound ⟨2, 100, 10⟩ (by norm_num) 12 [0, 5, 8, 30] 0

end RateLimiter

namespace RetryHandler

/-- Every slept delay corresponds to a retryable error at that attempt and
has the exponential-backoff value. -/
theorem retryGo_delays {ε α : Type} (baseDelay maxDelay : Nat)
    (shouldRetry : ε → Bool) (fn : Nat → Except ε α) :
    ∀ (remaining attempt i d : Nat),
      (retryGo baseDelay maxDelay shouldRetry fn remaining attempt).delays[i]? =
        some d →
      d = min (baseDelay * 2 ^ (attempt + i)) maxDelay ∧
      ∃ e, fn (attempt + i) = .error e ∧ shouldRetry e = true := by
  intro remaining
  induction remaining with
  | zero =>
    intro attempt i d h
    rw [retryGo] at h
    cases hfn : fn attempt <;> rw [hfn] at h <;> simp at h
  | succ r ih =>
    intro attempt i d h
    rw [retryGo] at h
    cases hfn : fn attempt with
    | ok v => rw [hfn] at h; simp at h
    | error e =>
      rw [hfn] at h
      by_cases hr : shouldRetry e = true
      · simp only [hr, if_true] at h
        match i with
        | 0 =>
          simp only [List.getElem?_cons_zero] at h
          injection h with h
          refine ⟨h.symm, e, ?_, hr⟩
          rw [Nat.add_zero]
          exact hfn
        | i + 1 =>
          simp only [List.getElem?_cons_succ] at h
          have hstep := ih (attempt + 1) i d h
          have heq : attempt + 1 + i = attempt + (i + 1) := by omega
          rw [heq] at hstep
          exact hstep
      · have hr' : shouldRetry e = false := by
          cases hb : shouldRetry e
          · rfl
          · exact absurd hb hr
        simp [hr'] at h

/-- **C9.** When the first invocation raises an error classified
non-retryable, `withExponentialBackoff` performs exactly one attempt,
propagates that error, and sleeps no backoff delay; and every backoff delay
it ever sleeps equals `min (baseDelay·2^attempt) maxDelay` and follows an
error classified retryable. -/
theorem retry_nonretryable_single_attempt {ε α : Type}
    (maxRetries baseDelay maxDelay : Nat) (shouldRetry : ε → Bool)
    (fn : Nat → Except ε α) :
    (∀ e, fn 0 = .error e → shouldRetry e = false →
      withExponentialBackoff maxRetries baseDelay maxDelay shouldRetry fn =
        ⟨.error e, 1, []⟩) ∧
    (∀ i d,
      (withExponentialBackoff maxRetries baseDelay maxDelay shouldRetry
        fn).delays[i]? = some d →
      d = min (baseDelay * 2 ^ i) maxDelay ∧
      ∃ e, fn i = .error e ∧ shouldRetry e = true) := by
  constructor
  · intro e hfn hsr
    unfold withExponentialBackoff
    rw [retryGo, hfn]
    cases maxRetries with
    | zero => rfl
    | succ r => simp [hsr]
  · intro i d h
    have := retryGo_delays baseDelay maxDelay shouldRetry fn maxRetries 0 i d h
    rwa [Nat.zero_add] at this

/-- Witness for C9: a function always failing with a non-retryable error is
attempted exactly once; a retryable first error produces the base delay. -/
theorem retry_nonretryable_single_attempt_witness :
    withExponentialBackoff 3 1000 10000 (fun _ => false)
      (fun _ => (.error 7 : Except Nat Unit)) = ⟨.error 7, 1, []⟩ ∧
    (1000 = min (1000 * 2 ^ 0) 10000 ∧
      ∃ e, (fun i => (.error i : Except Nat Unit)) 0 = .error e ∧
        (fun e => decide (e = 0)) e = true) :=
  ⟨(retry_nonretryable_single_attempt 3 1000 10000 (fun _ => false)
      (fun _ => (.error 7 : Except Nat Unit))).1 7 rfl rfl,
   (retry_nonretryable_single_attempt 3 1000 10000 (fun e => decide (e = 0))
      (fun i => (.error i : Except Nat Unit))).2 0 1000 (by decide)⟩

end RetryHandler

namespace ArbitrageDetector

/-- A successful `evalTriSize` emits the simulation's raw profit as
`estimatedProfit` and its margin haircut as `netProfit`. -/
theorem evalTriSize_spec (reservesAB reservesBC reservesCA : Int × Int)
    (gasEstimate marginFactor minProfitWei : Int) (tokenA tokenB tokenC : Nat)
    (a : Int) (opp : TriOpportunity)
    (h : evalTriSize reservesAB reservesBC reservesCA gasEstimate marginFactor
      minProfitWei tokenA tokenB tokenC a = some opp) :
    ∃ res, SimulatorService.simulateTriangularArbitrage a reservesAB reservesBC
        reservesCA gasEstimate = .ok res ∧
      opp.amountIn = a ∧ opp.estimatedProfit = res.profit ∧
      opp.netProfit = adjustProfit res.profit marginFactor ∧
      res.isProfitable = true ∧ minProfitWei < opp.netProfit := by
  unfold evalTriSize at h
  cases hsim : SimulatorService.simulateTriangularArbitrage a reservesAB
      reservesBC reservesCA gasEstimate with
  | error e => simp only [hsim] at h; exact absurd h (by simp)
  | ok res =>
    simp only [hsim] at h
    by_cases h1 : res.isProfitable = true
    · rw [if_pos h1] at h
      by_cases h2 : minProfitWei < adjustProfit res.profit marginFactor
      · rw [if_pos h2] at h
        injection h with h
        subst h
        exact ⟨res, rfl, rfl, rfl, rfl, h1, h2⟩
      · rw [if_neg h2] at h
        exact absurd h (by simp)
    · rw [if_neg h1] at h
      exact absurd h (by simp)

/-- **C7.** On both emission paths of the search engine, the net profit
attached to an emitted opportunity is exactly the simulation's raw profit
multiplied by the margin factor and integer-truncated by 1000
(`marginFactor` models `Math.floor((1 − safetyMargin)·1000)`), applied after
the simulation, and stored as `netProfit` alongside
`estimatedProfit = rawProfit`. -/
theorem netProfit_margin_haircut (amountIn : Int)
    (reservesA reservesB reservesAB reservesBC reservesCA : Int × Int)
    (gasEstimate marginFactor minProfitWei : Int) (tokenA tokenB tokenC : Nat)
    (sizes : List Int) :
    (∀ opp, simulateArbitrageOpp amountIn reservesA reservesB gasEstimate
        marginFactor = some opp →
      ∃ res, SimulatorService.simulateSimpleArbitrage amountIn reservesA
          reservesB gasEstimate = .ok res ∧
        opp.estimatedProfit = res.profit ∧
        opp.netProfit = adjustProfit res.profit marginFactor) ∧
    (∀ opp, checkTriangularArbitrage reservesAB reservesBC reservesCA
        gasEstimate marginFactor minProfitWei tokenA tokenB tokenC sizes =
          some opp →
      ∃ res, SimulatorService.simulateTriangularArbitrage opp.amountIn
          reservesAB reservesBC reservesCA gasEstimate = .ok res ∧
        opp.estimatedProfit = res.profit ∧
        opp.netProfit = adjustProfit res.profit marginFactor) := by
  constructor
  · intro opp h
    unfold simulateArbitrageOpp at h
    cases hsim : SimulatorService.simulateSimpleArbitrage amountIn reservesA
        reservesB gasEstimate with
    | error e => simp only [hsim] at h; exact absurd h (by simp)
    | ok res =>
      simp only [hsim] at h
      by_cases h1 : res.isProfitable = true
      · rw [if_pos h1] at h
        by_cases h2 : adjustProfit res.profit marginFactor ≤ 0
        · rw [if_pos h2] at h
          exact absurd h (by simp)
        · rw [if_neg h2] at h
          injection h with h
          subst h
          exact ⟨res, rfl, rfl, rfl⟩
      · rw [if_neg h1] at h
        exact absurd h (by simp)
  · intro opp h
    induction sizes with
    | nil => exact absurd h (by simp [checkTriangularArbitrage])
    | cons hd rest ih =>
      rw [checkTriangularArbitrage] at h
      cases heval : evalTriSize reservesAB reservesBC reservesCA gasEstimate
          marginFactor minProfitWei tokenA tokenB tokenC hd with
      | some o =>
        simp only [heval] at h
        have ho : o = opp := by injection h
        subst ho
        obtain ⟨res, hsim, ha, he, hn, -, -⟩ := evalTriSize_spec _ _ _ _ _ _ _ _ _
          hd o heval
        exact ⟨res, by rw [ha]; exact hsim, he, hn⟩
      | none =>
        simp only [heval] at h
        exact ih h

/-- Witness for C7: concrete runs of both emission paths. -/
theorem netProfit_margin_haircut_witness :
    ∃ opp res, simulateArbitrageOpp 10 (100, 200) (100, 10000) 1 950 =
        some opp ∧
      SimulatorService.simulateSimpleArbitrage 10 (100, 200) (100, 10000) 1 =
        .ok res ∧
      opp.estimatedProfit = res.profit ∧
      opp.netProfit = adjustProfit res.profit 950 := by
  have hsome : (simulateArbitrageOpp 10 (100, 200) (100, 10000) 1 950).isSome =
      true := by decide
  obtain ⟨opp, hopp⟩ := Option.isSome_iff_exists.mp hsome
  obtain ⟨res, hsim, he, hn⟩ :=
    (netProfit_margin_haircut 10 (100, 200) (100, 10000) (1, 1) (1, 1) (1, 1)
      1 950 0 0 1 2 []).1 opp hopp
  exact ⟨opp, res, hopp, hsim, he, hn⟩

/-- **C8.** For a fixed token triple and reserve snapshot, the triangular
size loop returns exactly the evaluation of the first candidate size (in
list order) that is accepted — all earlier sizes evaluate to `none` — and
returns `none` exactly when every candidate size is rejected.  This is
early-exit selection, not best-of-candidates. -/
theorem checkTriangular_first_success (reservesAB reservesBC reservesCA : Int × Int)
    (gasEstimate marginFactor minProfitWei : Int) (tokenA tokenB tokenC : Nat)
    (sizes : List Int) :
    (∀ opp, checkTriangularArbitrage reservesAB reservesBC reservesCA
        gasEstimate marginFactor minProfitWei tokenA tokenB tokenC sizes =
          some opp ↔
      ∃ pre a post, sizes = pre ++ a :: post ∧
        (∀ b ∈ pre, evalTriSize reservesAB reservesBC reservesCA gasEstimate
          marginFactor minProfitWei tokenA tokenB tokenC b = none) ∧
        evalTriSize reservesAB reservesBC reservesCA gasEstimate marginFactor
          minProfitWei tokenA tokenB tokenC a = some opp) ∧
    (checkTriangularArbitrage reservesAB reservesBC reservesCA gasEstimate
        marginFactor minProfitWei tokenA tokenB tokenC sizes = none ↔
      ∀ a ∈ sizes, evalTriSize reservesAB reservesBC reservesCA gasEstimate
        marginFactor minProfitWei tokenA tokenB tokenC a = none) := by
  induction sizes with
  | nil =>
    constructor
    · intro opp
      constructor
      · intro h
        exact absurd h (by simp [checkTriangularArbitrage])
      · rintro ⟨pre, a, post, hsz, -, -⟩
        exact absurd hsz (by simp)
    · simp [checkTriangularArbitrage]
  | cons hd rest ih =>
    obtain ⟨ih1, ih2⟩ := ih
    constructor
    · intro opp
      constructor
      · intro h
        rw [checkTriangularArbitrage] at h
        cases heval : evalTriSize reservesAB reservesBC reservesCA gasEstimate
            marginFactor minProfitWei tokenA tokenB tokenC hd with
        | some o =>
          simp only [heval] at h
          have ho : o = opp := by injection h
          subst ho
          refine ⟨[], hd, rest, rfl, by simp, heval⟩
        | none =>
          simp only [heval] at h
          obtain ⟨pre, a, post, hsz, hpre, ha⟩ := (ih1 opp).mp h
          refine ⟨hd :: pre, a, post, by rw [hsz]; rfl, ?_, ha⟩
          intro b hb
          rcases List.mem_cons.mp hb with hb | hb
          · rw [hb]; exact heval
          · exact hpre b hb
      · rintro ⟨pre, a, post, hsz, hpre, ha⟩
        cases pre with
        | nil =>
          simp only [List.nil_append] at hsz
          injection hsz with h1 h2
          subst h1
          subst h2
          rw [checkTriangularArbitrage, ha]
        | cons p pre' =>
          simp only [List.cons_append] at hsz
          injection hsz with h1 h2
          subst h1
          subst h2
          have hp : evalTriSize reservesAB reservesBC reservesCA gasEstimate
              marginFactor minProfitWei tokenA tokenB tokenC hd = none :=
            hpre hd (by simp)
          rw [checkTriangularArbitrage, hp]
          exact (ih1 opp).mpr ⟨pre', a, post, rfl,
            fun b hb => hpre b (List.mem_cons_of_mem _ hb), ha⟩
    · cases heval : evalTriSize reservesAB reservesBC reservesCA gasEstimate
          marginFactor minProfitWei tokenA tokenB tokenC hd with
      | some o =>
        rw [checkTriangularArbitrage]
        simp only [heval]
        constructor
        · intro h
          exact absurd h (by simp)
        · intro hall
          exact absurd (hall hd (by simp)) (by rw [heval]; simp)
      | none =>
        rw [checkTriangularArbitrage]
        simp only [heval]
        rw [ih2]
        constructor
        · intro hall b hb
          rcases List.mem_cons.mp hb with hb | hb
          · rw [hb]; exact heval
          · exact hall b hb
        · intro hall b hb
          exact hall b (List.mem_cons_of_mem _ hb)

/-- Witness for C8: a concrete run where the first candidate size wins. -/
theorem checkTriangular_first_success_witness :
    ∃ opp pre a post,
      checkTriangularArbitrage (100, 10000) (100, 10000) (100, 10000) 1 950 0
        1 2 3 [10, 20] = some opp ∧
      ([10, 20] : List Int) = pre ++ a :: post ∧
      (∀ b ∈ pre, evalTriSize (100, 10000) (100, 10000) (100, 10000) 1 950 0
        1 2 3 b = none) ∧
      evalTriSize (100, 10000) (100, 10000) (100, 10000) 1 950 0 1 2 3 a =
        some opp := by
  have hsome : (checkTriangularArbitrage (100, 10000) (100, 10000)
      (100, 10000) 1 950 0 1 2 3 [10, 20]).isSome = true := by decide
  obtain ⟨opp, hopp⟩ := Option.isSome_iff_exists.mp hsome
  obtain ⟨pre, a, post, hsz, hpre, ha⟩ :=
    ((checkTriangular_first_success (100, 10000) (100, 10000) (100, 10000)
      1 950 0 1 2 3 [10, 20]).1 opp).mp hopp
  exact ⟨opp, pre, a, post, hopp, hsz, hpre, ha⟩

end ArbitrageDetector
